import Mathlib

/-!
Verification development for the `memorizer` tiered conversational memory
engine.  The definitions below are a shallow embedding of the Python source:

* `src/memory.py`  — the `Memory` class (a "Tier"): validation, batched
  eviction, variable substitution, rendering, serialization and reload;
* `src/context.py` — the `Context` composition and its cascade chain;
* `src/completion.py` — the line-oriented stream parser;
* `src/model.py`   — the `_update_workspace` pre-step.

Python strings are modelled as Lean `String` (a list of characters); the
string library helpers used by the source (`str.replace`, `str.strip`,
`str.split`, `str.lower`) are re-implemented below on `List Char` with
Python's semantics.  Wall-clock time (`datetime.now(...)`) and timestamp
formatting (`Memory._format_timestamp`, a pure function of its input) are
passed in as explicit parameters `now` / `nowHM` / `fmtTs`, making every
operation a pure function of its inputs.
-/

namespace Memorizer

/-- Python `str.replace(pat, val)`: replace every non-overlapping occurrence
of `pat`, scanning left to right.  The source only calls it with the
non-empty token `"<" ++ var ++ ">"`; for an empty pattern this model returns
the string unchanged (Python would interleave `val`, a case never reached).
The `fuel` argument only makes the recursion structural (so that terms
reduce definitionally): every step consumes at least one character, so
`s.length` fuel — what the wrapper below supplies — is never exhausted. -/
def replaceListFuel (pat val : List Char) : Nat → List Char → List Char
  | 0, s => s
  | fuel + 1, s =>
    match s with
    | [] => []
    | c :: rest =>
      if pat ≠ [] ∧ pat.isPrefixOf (c :: rest) then
        val ++ replaceListFuel pat val fuel ((c :: rest).drop pat.length)
      else
        c :: replaceListFuel pat val fuel rest

/-- Python `str.replace` on character lists. -/
def replaceList (pat val s : List Char) : List Char :=
  replaceListFuel pat val s.length s

/-- Python `str.replace` lifted to `String`. -/
def pyReplace (s pat val : String) : String :=
  String.mk (replaceList pat.toList val.toList s.toList)

/-- Python `str.strip()` on a character list (both ends; whitespace as
modelled by `Char.isWhitespace`). -/
def stripList (s : List Char) : List Char :=
  ((s.dropWhile Char.isWhitespace).reverse.dropWhile Char.isWhitespace).reverse

/-- Python `str.strip()` on `String`. -/
def pyStrip (s : String) : String :=
  String.mk (stripList s.toList)

/-- Python `str.lower()` (ASCII model, which agrees with Python on every
comparison the source performs). -/
def pyLower (s : String) : String :=
  String.mk (s.toList.map Char.toLower)

/-- Python `str.split()` (split on whitespace runs, dropping empty parts);
`acc` holds the characters of the current word, reversed. -/
def splitWsAux (acc : List Char) : List Char → List (List Char)
  | [] => if acc = [] then [] else [acc.reverse]
  | c :: rest =>
    if c.isWhitespace then
      if acc = [] then splitWsAux [] rest
      else acc.reverse :: splitWsAux [] rest
    else
      splitWsAux (c :: acc) rest

/-- Python `str.split()` on `String`. -/
def pySplit (s : String) : List String :=
  (splitWsAux [] s.toList).map String.mk

/-- `src/model/message.py` — the `Message` dataclass. -/
structure Message where
  role : String
  content : String
  compressed_content : Option String := none
  timestamp : Option String := none
  formatted_timestamp : Option String := none
deriving DecidableEq, Repr

/-- The constructor keyword arguments of `Memory.__init__`
(`src/memory.py`).  The Python field `render_prefix` is called
`render_header` here (same meaning: text injected before the first rendered
message).  `persist_path` is modelled by the `persisted` flag on each
operation result instead of a path. -/
structure MemoryConfig where
  allowed_roles : Option (List String) := none
  max_messages : Option Nat := none
  drop_chunk_size : Nat := 1
  is_working_memory : Bool := false
  is_short_term_memory : Bool := false
  is_long_term_memory : Bool := false
  render_header : Option String := none
deriving DecidableEq, Repr

/-- `self._use_compressed_content = not is_working_memory`. -/
def MemoryConfig.use_compressed_content (cfg : MemoryConfig) : Bool :=
  !cfg.is_working_memory

/-- `self._include_timestamp = is_working_memory or is_short_term_memory`. -/
def MemoryConfig.include_timestamp (cfg : MemoryConfig) : Bool :=
  cfg.is_working_memory || cfg.is_short_term_memory

/-- `Memory._validate`: returns `some errorMessage` when the Python method
raises `ValueError`, `none` when it passes. -/
def validate (cfg : MemoryConfig) (m : Message) : Option String :=
  match cfg.allowed_roles with
  | some roles =>
    if m.role ∈ roles then
      match cfg.max_messages with
      | some n => if n < 1 then some "max_messages must be at least 1" else none
      | none => none
    else some "Invalid role"
  | none =>
    match cfg.max_messages with
    | some n => if n < 1 then some "max_messages must be at least 1" else none
    | none => none

/-- The timestamp-defaulting step at the top of `Memory._apply`: assign
`timestamp := now` when missing, then compute `formatted_timestamp` from the
timestamp when missing. -/
def normalizeMessage (fmtTs : String → String) (now : String) (m : Message) : Message :=
  let m1 := match m.timestamp with
    | none => { m with timestamp := some now }
    | some _ => m
  match m1.formatted_timestamp, m1.timestamp with
  | none, some t => { m1 with formatted_timestamp := some (fmtTs t) }
  | _, _ => m1

/-- The `while self._messages and len(self._messages) >= self._max_messages`
eviction loop of `Memory._apply`.  Returns the remaining list and the
evicted chunks, oldest first.  `max 1 dropSize` mirrors
`drop_size = max(1, self._drop_chunk_size)`.  As with `replaceListFuel`,
`fuel` only makes the loop structural: each iteration removes at least one
message, so the wrapper's `msgs.length` fuel is never exhausted. -/
def evictLoopFuel (maxM dropSize : Nat) : Nat → List Message → List Message × List Message
  | 0, msgs => (msgs, [])
  | fuel + 1, msgs =>
    if msgs ≠ [] ∧ maxM ≤ msgs.length then
      let step := max 1 dropSize
      let pair := evictLoopFuel maxM dropSize fuel (msgs.drop step)
      (pair.1, msgs.take step ++ pair.2)
    else
      (msgs, [])

/-- The eviction loop of `Memory._apply`. -/
def evictLoop (maxM dropSize : Nat) (msgs : List Message) : List Message × List Message :=
  evictLoopFuel maxM dropSize msgs.length msgs

/-- A `Memory._apply` input item: either a `Message` instance or a raw dict
(as read back from a persisted file). -/
structure RawMessage where
  role : Option String := none
  content : Option String := none
  compressed_content : Option String := none
  timestamp : Option String := none
deriving DecidableEq, Repr

/-- `Memory._parse_message`: `.error` models the raised `ValueError`. -/
def parseMessage (fmtTs : String → String) (r : RawMessage) : Except String Message :=
  match r.role, r.content with
  | some role, some content =>
    .ok { role := role
          content := content
          compressed_content := r.compressed_content
          timestamp := r.timestamp
          formatted_timestamp := r.timestamp.map fmtTs }
  | _, _ => .error "Message dict must contain role and content"

/-- `Memory._parse_messages` (stops at the first bad dict, as the raised
exception does). -/
def parseMessages (fmtTs : String → String) : List RawMessage → Except String (List Message)
  | [] => .ok []
  | r :: rest =>
    match parseMessage fmtTs r with
    | .error e => .error e
    | .ok m =>
      match parseMessages fmtTs rest with
      | .error e => .error e
      | .ok ms => .ok (m :: ms)

/-- An input item of `Memory._apply` (`dict[str, str] | Message`). -/
inductive MsgInput where
  | msg (m : Message)
  | raw (r : RawMessage)
deriving DecidableEq, Repr

/-- Result of `Memory._apply`: the tier contents after the call (also on the
exception path, since Python mutates `self._messages` in place), the
collected evictions, and the pending exception (`none` = returned
normally). -/
structure ApplyResult where
  messages : List Message
  dropped : List Message
  error : Option String := none
deriving DecidableEq, Repr

/-- `Memory._apply`: per input message parse (for dicts), default the
timestamps, validate, evict in chunks while at capacity, then append.  An
exception stops the loop, leaving the partial state behind. -/
def applyLoop (cfg : MemoryConfig) (fmtTs : String → String) (now : String) :
    List Message → List Message → List MsgInput → ApplyResult
  | cur, dr, [] => { messages := cur, dropped := dr }
  | cur, dr, inp :: rest =>
    let parsed : Except String Message :=
      match inp with
      | .msg m => .ok m
      | .raw r => parseMessage fmtTs r
    match parsed with
    | .error e => { messages := cur, dropped := dr, error := some e }
    | .ok m0 =>
      let m := normalizeMessage fmtTs now m0
      match validate cfg m with
      | some e => { messages := cur, dropped := dr, error := some e }
      | none =>
        match cfg.max_messages with
        | some maxM =>
          if maxM ≤ cur.length then
            let pair := evictLoop maxM cfg.drop_chunk_size cur
            applyLoop cfg fmtTs now (pair.1 ++ [m]) (dr ++ pair.2) rest
          else
            applyLoop cfg fmtTs now (cur ++ [m]) dr rest
        | none => applyLoop cfg fmtTs now (cur ++ [m]) dr rest

/-- Result of `Memory.extend`: besides the `_apply` outcome, `persisted`
records whether `_save_to_disk` was reached (it is skipped when `_apply`
raises, because the exception propagates first). -/
structure ExtendResult where
  messages : List Message
  dropped : List Message
  persisted : Bool
  error : Option String := none
deriving DecidableEq, Repr

/-- `Memory.extend` (and `Memory.append` via a one-element list). -/
def extend (cfg : MemoryConfig) (fmtTs : String → String) (now : String)
    (cur : List Message) (inputs : List MsgInput) : ExtendResult :=
  let r := applyLoop cfg fmtTs now cur [] inputs
  { messages := r.messages
    dropped := r.dropped
    persisted := r.error.isNone
    error := r.error }

/-- `Memory.set_messages`: clear, then `_apply` (evictions discarded). -/
def set_messages (cfg : MemoryConfig) (fmtTs : String → String) (now : String)
    (inputs : List MsgInput) : ApplyResult :=
  applyLoop cfg fmtTs now [] [] inputs

/-- `Memory.set_var`: replace the token `<var>` in every content, rebuild
changed messages (preserving the other fields); the boolean reports whether
anything changed, i.e. whether `_save_to_disk` ran. -/
def set_var (ms : List Message) (var value : String) : List Message × Bool :=
  let token := "<" ++ var ++ ">"
  let step : Message → Message × Bool := fun m =>
    let content := pyReplace m.content token value
    if content ≠ m.content then
      ({ role := m.role
         content := content
         compressed_content := m.compressed_content
         timestamp := m.timestamp
         formatted_timestamp := m.formatted_timestamp }, true)
    else (m, false)
  let updated := ms.map (fun m => (step m).1)
  let changed := ms.any (fun m => (step m).2)
  if changed then (updated, true) else (ms, false)

/-- The content-selection and header part of `Memory._render_content`
(everything before the timestamp logic): compressed content is used only if
the tier prefers it and it is non-`None` and non-empty (Python truthiness);
the header (`render_prefix` in the source) is prepended at index 0 only when
non-`None` and non-empty. -/
def renderContentBase (cfg : MemoryConfig) (m : Message) (idx : Nat) : String :=
  let content :=
    match m.compressed_content with
    | some cc => if cfg.use_compressed_content ∧ cc ≠ "" then cc else m.content
    | none => m.content
  match cfg.render_header with
  | some p => if idx = 0 ∧ p ≠ "" then p ++ "\n\n" ++ content else content
  | none => content

/-- `Memory._render_content`: no timestamp for the last two messages, the
current wall-clock time (`nowHM`, for `datetime.now().strftime(...)`) for
the last message, and the cached `formatted_timestamp` (when present) for
every message before the last two. -/
def renderContent (cfg : MemoryConfig) (nowHM : String) (total : Nat)
    (m : Message) (idx : Nat) : String :=
  let content := renderContentBase cfg m idx
  if cfg.include_timestamp = false then content
  else
    let timestamp : Option String :=
      if idx + 2 < total ∧ m.formatted_timestamp.isSome then m.formatted_timestamp
      else if idx + 1 = total then some nowHM
      else none
    match timestamp with
    | none => content
    | some ts => ts ++ "\n\n" ++ content

/-- `Memory._render_role`: `memory`-role messages are emitted as `system`. -/
def renderRole (m : Message) : String :=
  if m.role = "memory" then "system" else m.role

/-- One element of `Memory.to_messages`: an OpenAI-style role/content pair. -/
structure Rendered where
  role : String
  content : String
deriving DecidableEq, Repr

/-- `Memory.to_messages`. -/
def toMessages (cfg : MemoryConfig) (nowHM : String) (msgs : List Message) :
    List Rendered :=
  msgs.enum.map fun p =>
    { role := renderRole p.2, content := renderContent cfg nowHM msgs.length p.2 p.1 }

/-- One serialized message of `Memory._serialize` (keys omitted when the
field is `None` are `none` here). -/
def serializeMessage (m : Message) : RawMessage :=
  { role := some m.role
    content := some m.content
    compressed_content := m.compressed_content
    timestamp := m.timestamp }

/-- The JSON payload written by `Memory._save_to_disk`: a plain array for
ordinary tiers, the single-element `{messages, uncompressed}` wrapper for
the episodic long-term tier. -/
inductive FilePayload where
  | ordinary (items : List RawMessage)
  | wrapped (messages uncompressed : List RawMessage)
deriving DecidableEq, Repr

/-- `Memory._serialize` (with `Memory._serialize_uncompressed`). -/
def serialize (cfg : MemoryConfig) (msgs uncompressed : List Message) : FilePayload :=
  if cfg.is_long_term_memory then
    .wrapped (msgs.map serializeMessage) (uncompressed.map serializeMessage)
  else
    .ordinary (msgs.map serializeMessage)

/-- Result of `Memory._load_from_disk` on a parseable JSON payload:
the tier state reached, and the exception (if any) that escaped
(`_load_from_disk` does not catch errors raised by `_parse_messages` or
`_apply`; only JSON decode errors are quarantined, a case outside this
payload type). -/
structure LoadResult where
  messages : List Message
  uncompressed : List Message
  error : Option String := none
deriving DecidableEq, Repr

/-- `Memory._load_from_disk` on a decoded JSON list.  A wrapped payload read
by a non-long-term tier falls through to `_apply`, whose `_parse_message`
rejects the wrapper dict (it has no `role`/`content` keys). -/
def loadFromDisk (cfg : MemoryConfig) (fmtTs : String → String) (now : String) :
    FilePayload → LoadResult
  | .wrapped ms us =>
    if cfg.is_long_term_memory then
      match parseMessages fmtTs ms with
      | .error e => { messages := [], uncompressed := [], error := some e }
      | .ok msgs =>
        match parseMessages fmtTs us with
        | .error e => { messages := msgs, uncompressed := [], error := some e }
        | .ok unc => { messages := msgs, uncompressed := unc }
    else
      { messages := []
        uncompressed := []
        error := some "Message dict must contain role and content" }
  | .ordinary items =>
    let r := applyLoop cfg fmtTs now [] [] (items.map .raw)
    { messages := r.messages, uncompressed := [], error := r.error }

/-! ### `src/context.py` — the Context composition and its cascade chain -/

/-- The tier configurations fixed by `Context.create`. -/
def workingConfig : MemoryConfig :=
  { allowed_roles := some ["user", "assistant"]
    max_messages := some 10
    drop_chunk_size := 2
    is_working_memory := true }

/-- Short-term tier configuration from `Context.create`. -/
def shortTermConfig : MemoryConfig :=
  { allowed_roles := some ["user", "assistant"]
    max_messages := some 30
    drop_chunk_size := 10
    render_header := some "#short-term memory"
    is_short_term_memory := true }

/-- Long-term episodic tier configuration from `Context.create` (unbounded:
`max_messages` is `None`). -/
def longTermEpisodicConfig : MemoryConfig :=
  { allowed_roles := some ["system", "user", "assistant", "memory"]
    is_long_term_memory := true
    render_header := some "#Long-term episodic memory" }

/-- Recall tier configuration from `Context.create`. -/
def recallConfig : MemoryConfig :=
  { allowed_roles := some ["user", "assistant"] }

/-- Workspace tier configuration from `Context.create`. -/
def workspaceConfig : MemoryConfig :=
  { allowed_roles := some ["memory"]
    max_messages := some 1
    render_header := some "#Workspace (DO NOT expose unless asked!)" }

/-- Names of the tiers that can take part in cascading. -/
inductive LayerTag where
  | working
  | shortTerm
  | longTermEpisodic
  | recall
deriving DecidableEq, Repr

/-- `ctx.layers = [ctx.working, ctx.short_term, ctx.long_term_episodic]`
(`src/context.py`, line 111) — the cascade chain of `Context.append`. -/
def contextLayers : List LayerTag :=
  [LayerTag.working, LayerTag.shortTerm, LayerTag.longTermEpisodic]

/-- The message lists of the cascade-relevant tiers of a `Context`
(the Python field `recall` is called `recall_memory` here). -/
structure ContextState where
  working : List Message
  short_term : List Message
  long_term_episodic : List Message
  recall_memory : List Message
deriving DecidableEq, Repr

/-- Result of `Context.append`: the new state, plus the exception (if any)
raised by one of the tier insertions. -/
structure CtxAppendResult where
  state : ContextState
  error : Option String := none
deriving DecidableEq, Repr

/-- `Context.append`: append to the working tier, then feed each evicted
batch to the next tier of `layers`, stopping when a tier reports no
evictions.  The drops of the last layer are discarded. -/
def ctxAppend (fmtTs : String → String) (now : String) (s : ContextState)
    (role content : String) : CtxAppendResult :=
  let r1 := extend workingConfig fmtTs now s.working
    [.msg { role := role, content := content }]
  let s1 := { s with working := r1.messages }
  match r1.error with
  | some e => { state := s1, error := some e }
  | none =>
    if r1.dropped = [] then { state := s1 }
    else
      let r2 := extend shortTermConfig fmtTs now s1.short_term (r1.dropped.map .msg)
      let s2 := { s1 with short_term := r2.messages }
      match r2.error with
      | some e => { state := s2, error := some e }
      | none =>
        if r2.dropped = [] then { state := s2 }
        else
          let r3 := extend longTermEpisodicConfig fmtTs now s2.long_term_episodic
            (r2.dropped.map .msg)
          { state := { s2 with long_term_episodic := r3.messages }, error := r3.error }

/-! ### `src/completion.py` — the stream parser -/

/-- The only field of the `usage` payload the source ever reads. -/
structure Usage where
  completion_tokens : Nat
deriving DecidableEq, Repr

/-- `choices[0].delta`: the two independent delta channels. -/
structure Delta where
  content : Option String := none
  reasoning_content : Option String := none
deriving DecidableEq, Repr

/-- One parsed `data: ` event. -/
structure Chunk where
  usage : Option Usage := none
  choices : List Delta := []
deriving DecidableEq, Repr

/-- One line of `response.iter_lines()` after the decode/parse stage:
`empty` is a falsy line (skipped by `if line:`), `noData` a line without the
`data: ` marker (ignored), `done` the `[DONE]` terminator, `chunk` a
well-formed event, and `malformed` a line whose decode or JSON parse
raises. -/
inductive StreamLine where
  | empty
  | noData (s : String)
  | done
  | chunk (c : Chunk)
  | malformed
deriving DecidableEq, Repr

/-- The loop state of `stream_completion`: last seen usage, accumulated
content deltas, and the reasoning-mode flag. -/
structure StreamLoopState where
  usage : Option Usage := none
  parts : List String := []
  reasoning : Bool := false
deriving DecidableEq, Repr

/-- The `for line in response.iter_lines()` loop of `stream_completion`.
`.error` models an exception escaping the loop. -/
def streamLoop (st : StreamLoopState) : List StreamLine → Except Unit StreamLoopState
  | [] => .ok st
  | line :: rest =>
    match line with
    | .empty => streamLoop st rest
    | .noData _ => streamLoop st rest
    | .done => .ok st
    | .malformed => .error ()
    | .chunk c =>
      let st1 := match c.usage with
        | some u => { st with usage := some u }
        | none => st
      let st2 := match c.choices.head? with
        | none => st1
        | some delta =>
          let stA := match delta.content with
            | some s =>
              if s ≠ "" then
                let stT := if st1.reasoning then { st1 with reasoning := false } else st1
                { stT with parts := stT.parts ++ [s] }
              else st1
            | none => st1
          match delta.reasoning_content with
          | some s => if s ≠ "" then { stA with reasoning := true } else stA
          | none => stA
      streamLoop st2 rest

/-- Result of `stream_completion`: the returned usage and the
`model.append` calls made (role/content pairs). -/
structure StreamResult where
  usage : Option Usage
  appended : List (String × String)
deriving DecidableEq, Repr

/-- `stream_completion`: run the loop; on an exception report and return no
usage (appending nothing); otherwise strip the joined content deltas and
append them as one assistant message when non-empty. -/
def streamCompletion (lines : List StreamLine) : StreamResult :=
  match streamLoop {} lines with
  | .error _ => { usage := none, appended := [] }
  | .ok st =>
    let text := pyStrip (String.join st.parts)
    if text ≠ "" then { usage := st.usage, appended := [("assistant", text)] }
    else { usage := st.usage, appended := [] }

/-! ### `src/model.py` — the workspace-update pre-step -/

/-- The `difficulty_to_thinking` lookup with default `"low"`
(`dict.get(difficulty, "low")`). -/
def difficultyToThinking (d : String) : String :=
  if d = "easy" then "low"
  else if d = "medium" then "medium"
  else if d = "hard" then "high"
  else "low"

/-- `workspace.split()[-1]`.  For the empty token list Python would raise an
`IndexError`; the source only reaches this with a non-empty stripped string,
whose split is never empty, so the `""` default is unreachable. -/
def lastToken (s : String) : String :=
  match (pySplit s).getLast? with
  | some t => t
  | none => ""

/-- `Model._update_workspace`: `llmOut` is the value of
`self.nostream(...)`.  Returns the new workspace tier contents and the
reasoning-effort string. -/
def updateWorkspace (fmtTs : String → String) (now : String)
    (prev : List Message) (llmOut : String) : List Message × String :=
  let workspace := pyStrip llmOut
  if workspace = "" then (prev, "low")
  else
    let r := set_messages workspaceConfig fmtTs now
      [.msg { role := "memory", content := workspace }]
    let difficulty := pyLower (pyStrip (lastToken workspace))
    (r.messages, difficultyToThinking difficulty)

/-! ## Helper lemmas -/

theorem string_mk_toList (s : String) : String.mk s.toList = s := rfl

/-- `str.replace` leaves a string without any occurrence of the (non-empty)
pattern unchanged, for any amount of fuel. -/
theorem replaceListFuel_no_occurrence (pat val : List Char) (hp : pat ≠ []) :
    ∀ (fuel : Nat) (s : List Char), ¬ pat <:+: s → replaceListFuel pat val fuel s = s := by
  intro fuel
  induction fuel with
  | zero => intro s _; rfl
  | succ n ih =>
    intro s h
    match s with
    | [] => rfl
    | c :: rest =>
      have hpre : ¬ pat.isPrefixOf (c :: rest) = true := by
        intro hp'
        exact h (List.isPrefixOf_iff_prefix.mp hp').isInfix
      have hrest : ¬ pat <:+: rest := fun hi => h (List.infix_cons hi)
      simp only [replaceListFuel]
      rw [if_neg]
      · rw [ih rest hrest]
      · intro hc
        exact hpre hc.2

/-- The substitution token `<var>` is never the empty string. -/
theorem token_toList_ne_nil (var : String) : ("<" ++ var ++ ">").toList ≠ [] := by
  show ("<" ++ var ++ ">").data ≠ []
  simp [String.data_append]

theorem pyReplace_no_occurrence (s pat val : String) (hp : pat.toList ≠ [])
    (h : ¬ pat.toList <:+: s.toList) : pyReplace s pat val = s := by
  unfold pyReplace replaceList
  rw [replaceListFuel_no_occurrence pat.toList val.toList hp s.toList.length s.toList h]
  exact string_mk_toList s

/-- `set_var` is the identity (and does not persist) when the substitution
changes no content. -/
theorem set_var_no_change (ms : List Message) (var value : String)
    (h : ∀ m ∈ ms, pyReplace m.content ("<" ++ var ++ ">") value = m.content) :
    set_var ms var value = (ms, false) := by
  unfold set_var
  simp only
  rw [if_neg]
  intro hc
  rw [List.any_eq_true] at hc
  obtain ⟨m, hm, hstep⟩ := hc
  rw [if_neg] at hstep
  · exact Bool.false_ne_true hstep
  · simp [h m hm]

/-- `set_var` only rewrites `content`: role, compressed content and both
timestamp fields of every message are preserved. -/
theorem set_var_preserves_fields (ms : List Message) (var value : String) :
    (set_var ms var value).1.map
        (fun m => (m.role, m.compressed_content, m.timestamp, m.formatted_timestamp))
      = ms.map (fun m => (m.role, m.compressed_content, m.timestamp, m.formatted_timestamp)) := by
  unfold set_var
  simp only
  split
  · rw [List.map_map]
    apply List.map_congr_left
    intro m _
    simp only [Function.comp_apply]
    split <;> rfl
  · rfl

/-- The eviction loop only moves messages: the evicted chunks followed by
the remaining messages are exactly the original list (for any fuel). -/
theorem evictLoopFuel_conservation (maxM d : Nat) :
    ∀ (fuel : Nat) (msgs : List Message),
      (evictLoopFuel maxM d fuel msgs).2 ++ (evictLoopFuel maxM d fuel msgs).1 = msgs := by
  intro fuel
  induction fuel with
  | zero => intro msgs; rfl
  | succ n ih =>
    intro msgs
    rw [evictLoopFuel]
    split
    · simp only
      rw [List.append_assoc, ih (msgs.drop (max 1 d))]
      exact List.take_append_drop _ _
    · rfl

/-- With enough fuel (one unit per message suffices) the eviction loop ends
strictly below the capacity bound. -/
theorem evictLoopFuel_length (maxM d : Nat) (hM : 1 ≤ maxM) :
    ∀ (fuel : Nat) (msgs : List Message), msgs.length ≤ fuel →
      ((evictLoopFuel maxM d fuel msgs).1).length < maxM := by
  intro fuel
  induction fuel with
  | zero =>
    intro msgs h
    have : msgs = [] := List.length_eq_zero.mp (Nat.le_zero.mp h)
    subst this
    simpa [evictLoopFuel] using hM
  | succ n ih =>
    intro msgs h
    rw [evictLoopFuel]
    split
    · simp only
      apply ih
      have : 1 ≤ max 1 d := Nat.le_max_left 1 d
      simp only [List.length_drop]
      omega
    next hcond =>
      simp only
      rcases Decidable.not_and_iff_or_not.mp hcond with hnil | hlen
      · have : msgs = [] := Decidable.not_not.mp hnil
        subst this
        simpa using hM
      · omega

theorem evictLoop_conservation (maxM d : Nat) (msgs : List Message) :
    (evictLoop maxM d msgs).2 ++ (evictLoop maxM d msgs).1 = msgs :=
  evictLoopFuel_conservation maxM d msgs.length msgs

theorem evictLoop_length (maxM d : Nat) (hM : 1 ≤ maxM) (msgs : List Message) :
    ((evictLoop maxM d msgs).1).length < maxM :=
  evictLoopFuel_length maxM d hM msgs.length msgs (Nat.le_refl _)

theorem normalizeMessage_role (fmtTs : String → String) (now : String) (m : Message) :
    (normalizeMessage fmtTs now m).role = m.role := by
  unfold normalizeMessage
  cases m.timestamp <;> simp only <;> split <;> rfl

theorem normalizeMessage_isSome (fmtTs : String → String) (now : String) (m : Message) :
    (normalizeMessage fmtTs now m).timestamp.isSome = true ∧
    (normalizeMessage fmtTs now m).formatted_timestamp.isSome = true := by
  unfold normalizeMessage
  cases ht : m.timestamp <;> cases hf : m.formatted_timestamp <;> simp [ht, hf]

/-- Normalization does not touch a message whose two timestamp fields are
already set. -/
theorem normalizeMessage_eq_self (fmtTs : String → String) (now : String) (m : Message)
    (h1 : m.timestamp.isSome = true) (h2 : m.formatted_timestamp.isSome = true) :
    normalizeMessage fmtTs now m = m := by
  unfold normalizeMessage
  cases ht : m.timestamp with
  | none => rw [ht] at h1; simp at h1
  | some t =>
    cases hf : m.formatted_timestamp with
    | none => rw [hf] at h2; simp at h2
    | some f => simp [ht, hf]

/-- `_validate` passes when the role is allowed and the capacity (if any) is
at least 1. -/
theorem validate_none_of (cfg : MemoryConfig) (m : Message)
    (hrole : ∀ rs, cfg.allowed_roles = some rs → m.role ∈ rs)
    (hcap : ∀ C, cfg.max_messages = some C → 1 ≤ C) :
    validate cfg m = none := by
  unfold validate
  cases hr : cfg.allowed_roles with
  | some rs =>
    cases hm : cfg.max_messages with
    | some n =>
      have := hcap n hm
      simp [hrole rs hr, Nat.not_lt.mpr this]
    | none => simp [hrole rs hr]
  | none =>
    cases hm : cfg.max_messages with
    | some n =>
      have := hcap n hm
      simp [Nat.not_lt.mpr this]
    | none => simp

/-- Conversely, when a role whitelist is configured, `_validate` passing
means the role is on it. -/
theorem validate_none_role (cfg : MemoryConfig) (m : Message) (rs : List String)
    (hrs : cfg.allowed_roles = some rs) (h : validate cfg m = none) :
    m.role ∈ rs := by
  unfold validate at h
  rw [hrs] at h
  by_cases hin : m.role ∈ rs
  · exact hin
  · simp [hin] at h

/-- `_apply` conservation: on the non-error path, the collected evictions
followed by the final contents are exactly the prior evictions, the prior
contents, and the (timestamp-normalized) inputs, in order. -/
theorem applyLoop_msgs_conservation (cfg : MemoryConfig) (fmtTs : String → String)
    (now : String) :
    ∀ (ms cur dr : List Message),
      (applyLoop cfg fmtTs now cur dr (ms.map .msg)).error = none →
      (applyLoop cfg fmtTs now cur dr (ms.map .msg)).dropped
          ++ (applyLoop cfg fmtTs now cur dr (ms.map .msg)).messages
        = dr ++ cur ++ ms.map (normalizeMessage fmtTs now) := by
  intro ms
  induction ms with
  | nil =>
    intro cur dr _
    simp [applyLoop]
  | cons m ms ih =>
    intro cur dr herr
    simp only [List.map_cons, applyLoop] at herr ⊢
    cases hval : validate cfg (normalizeMessage fmtTs now m) with
    | some e => simp [hval] at herr
    | none =>
      simp only [hval] at herr ⊢
      cases hmax : cfg.max_messages with
      | none =>
        simp only [hmax] at herr ⊢
        rw [ih (cur ++ [normalizeMessage fmtTs now m]) dr herr]
        simp
      | some maxM =>
        simp only [hmax] at herr ⊢
        by_cases hlen : maxM ≤ cur.length
        · simp only [if_pos hlen] at herr ⊢
          rw [ih _ _ herr]
          have hcons := evictLoop_conservation maxM cfg.drop_chunk_size cur
          simp only [List.append_assoc]
          conv_rhs => rw [← hcons]
          simp [List.append_assoc]
        · simp only [if_neg hlen] at herr ⊢
          rw [ih _ _ herr]
          simp

/-- `_apply` keeps a tier with capacity `C ≥ 1` at or below `C` messages
(also on the exception path, which leaves the partial state behind). -/
theorem applyLoop_msgs_length (cfg : MemoryConfig) (fmtTs : String → String) (now : String)
    (C : Nat) (hC : cfg.max_messages = some C) (hC1 : 1 ≤ C) :
    ∀ (ms cur dr : List Message), cur.length ≤ C →
      (applyLoop cfg fmtTs now cur dr (ms.map .msg)).messages.length ≤ C := by
  intro ms
  induction ms with
  | nil =>
    intro cur dr h
    simpa [applyLoop] using h
  | cons m ms ih =>
    intro cur dr hcur
    simp only [List.map_cons, applyLoop]
    cases hval : validate cfg (normalizeMessage fmtTs now m) with
    | some e => simpa using hcur
    | none =>
      simp only [hC]
      by_cases hlen : C ≤ cur.length
      · simp only [if_pos hlen]
        apply ih
        have := evictLoop_length C cfg.drop_chunk_size hC1 cur
        simp only [List.length_append, List.length_cons, List.length_nil]
        omega
      · simp only [if_neg hlen]
        apply ih
        simp only [List.length_append, List.length_cons, List.length_nil]
        omega

/-- `_apply` raises no error when every input role is allowed and the
capacity (if any) is at least 1. -/
theorem applyLoop_msgs_no_error (cfg : MemoryConfig) (fmtTs : String → String) (now : String)
    (hcap : ∀ C, cfg.max_messages = some C → 1 ≤ C) :
    ∀ (ms : List Message),
      (∀ m ∈ ms, ∀ rs, cfg.allowed_roles = some rs → m.role ∈ rs) →
      ∀ (cur dr : List Message),
        (applyLoop cfg fmtTs now cur dr (ms.map .msg)).error = none := by
  intro ms
  induction ms with
  | nil => intro _ cur dr; simp [applyLoop]
  | cons m ms ih =>
    intro hroles cur dr
    simp only [List.map_cons, applyLoop]
    have hm : validate cfg (normalizeMessage fmtTs now m) = none := by
      apply validate_none_of
      · intro rs hrs
        rw [normalizeMessage_role]
        exact hroles m (List.mem_cons_self m ms) rs hrs
      · exact hcap
    rw [hm]
    have hrest : ∀ x ∈ ms, ∀ rs, cfg.allowed_roles = some rs → x.role ∈ rs :=
      fun x hx => hroles x (List.mem_cons_of_mem m hx)
    cases hmax : cfg.max_messages with
    | none => exact ih hrest _ _
    | some maxM =>
      by_cases hlen : maxM ≤ cur.length
      · simp only [if_pos hlen]
        exact ih hrest _ _
      · simp only [if_neg hlen]
        exact ih hrest _ _

/-- Conversely: when `_apply` completes without error on a tier with a role
whitelist, every inserted role was on the whitelist. -/
theorem applyLoop_msgs_ok_roles (cfg : MemoryConfig) (fmtTs : String → String) (now : String)
    (rs : List String) (hrs : cfg.allowed_roles = some rs) :
    ∀ (ms cur dr : List Message),
      (applyLoop cfg fmtTs now cur dr (ms.map .msg)).error = none →
      ∀ m ∈ ms, m.role ∈ rs := by
  intro ms
  induction ms with
  | nil => intro cur dr _ m hm; simp at hm
  | cons m ms ih =>
    intro cur dr herr x hx
    simp only [List.map_cons, applyLoop] at herr
    cases hval : validate cfg (normalizeMessage fmtTs now m) with
    | some e => simp [hval] at herr
    | none =>
      simp only [hval] at herr
      have hhead : m.role ∈ rs := by
        have := validate_none_role cfg (normalizeMessage fmtTs now m) rs hrs hval
        rwa [normalizeMessage_role] at this
      rcases List.mem_cons.mp hx with hx | hx
      · subst hx; exact hhead
      · cases hmax : cfg.max_messages with
        | none =>
          simp only [hmax] at herr
          exact ih _ _ herr x hx
        | some maxM =>
          simp only [hmax] at herr
          by_cases hlen : maxM ≤ cur.length
          · simp only [if_pos hlen] at herr
            exact ih _ _ herr x hx
          · simp only [if_neg hlen] at herr
            exact ih _ _ herr x hx

/-- On an unbounded tier (`max_messages = None`) `_apply` never evicts: on
the non-error path it appends all normalized inputs. -/
theorem applyLoop_msgs_unbounded (cfg : MemoryConfig) (fmtTs : String → String) (now : String)
    (hmax : cfg.max_messages = none) :
    ∀ (ms cur dr : List Message),
      (applyLoop cfg fmtTs now cur dr (ms.map .msg)).error = none →
      applyLoop cfg fmtTs now cur dr (ms.map .msg)
        = { messages := cur ++ ms.map (normalizeMessage fmtTs now), dropped := dr, error := none } := by
  intro ms
  induction ms with
  | nil => intro cur dr _; simp [applyLoop]
  | cons m ms ih =>
    intro cur dr herr
    simp only [List.map_cons, applyLoop] at herr ⊢
    cases hval : validate cfg (normalizeMessage fmtTs now m) with
    | some e => simp [hval] at herr
    | none =>
      simp only [hval, hmax] at herr ⊢
      rw [ih _ _ herr]
      simp

/-- Every message found in the result of `_apply` (remaining or evicted)
came either from the prior evictions, the prior contents, or is one of the
normalized inputs. -/
theorem applyLoop_msgs_mem (cfg : MemoryConfig) (fmtTs : String → String) (now : String) :
    ∀ (ms cur dr : List Message) (x : Message),
      (x ∈ (applyLoop cfg fmtTs now cur dr (ms.map .msg)).dropped ∨
       x ∈ (applyLoop cfg fmtTs now cur dr (ms.map .msg)).messages) →
      x ∈ dr ∨ x ∈ cur ∨ ∃ m ∈ ms, x = normalizeMessage fmtTs now m := by
  intro ms
  induction ms with
  | nil =>
    intro cur dr x hx
    simp only [List.map_nil, applyLoop] at hx
    tauto
  | cons m ms ih =>
    intro cur dr x hx
    simp only [List.map_cons, applyLoop] at hx
    cases hval : validate cfg (normalizeMessage fmtTs now m) with
    | some e =>
      simp only [hval] at hx
      tauto
    | none =>
      simp only [hval] at hx
      have hpush : ∀ cur1 dr1 : List Message,
          (x ∈ dr1 → x ∈ dr ∨ x ∈ cur) →
          (x ∈ cur1 → x ∈ cur ∨ x = normalizeMessage fmtTs now m) →
          (x ∈ (applyLoop cfg fmtTs now cur1 dr1 (ms.map .msg)).dropped ∨
           x ∈ (applyLoop cfg fmtTs now cur1 dr1 (ms.map .msg)).messages) →
          x ∈ dr ∨ x ∈ cur ∨ ∃ y ∈ m :: ms, x = normalizeMessage fmtTs now y := by
        intro cur1 dr1 hdr1 hcur1 hres
        rcases ih cur1 dr1 x hres with h | h | ⟨y, hy, hxy⟩
        · rcases hdr1 h with h | h
          · exact Or.inl h
          · exact Or.inr (Or.inl h)
        · rcases hcur1 h with h | h
          · exact Or.inr (Or.inl h)
          · exact Or.inr (Or.inr ⟨m, List.mem_cons_self m ms, h⟩)
        · exact Or.inr (Or.inr ⟨y, List.mem_cons_of_mem m hy, hxy⟩)
      cases hmax : cfg.max_messages with
      | none =>
        simp only [hmax] at hx
        apply hpush (cur ++ [normalizeMessage fmtTs now m]) dr
        · exact fun h => Or.inl h
        · intro h
          rcases List.mem_append.mp h with h | h
          · exact Or.inl h
          · simp at h; exact Or.inr h
        · exact hx
      | some maxM =>
        simp only [hmax] at hx
        have hcons := evictLoop_conservation maxM cfg.drop_chunk_size cur
        by_cases hlen : maxM ≤ cur.length
        · simp only [if_pos hlen] at hx
          apply hpush ((evictLoop maxM cfg.drop_chunk_size cur).1 ++ [normalizeMessage fmtTs now m])
            (dr ++ (evictLoop maxM cfg.drop_chunk_size cur).2)
          · intro h
            rcases List.mem_append.mp h with h | h
            · exact Or.inl h
            · refine Or.inr ?_
              rw [← hcons]
              exact List.mem_append.mpr (Or.inl h)
          · intro h
            rcases List.mem_append.mp h with h | h
            · refine Or.inl ?_
              rw [← hcons]
              exact List.mem_append.mpr (Or.inr h)
            · simp at h; exact Or.inr h
          · exact hx
        · simp only [if_neg hlen] at hx
          apply hpush (cur ++ [normalizeMessage fmtTs now m]) dr
          · exact fun h => Or.inl h
          · intro h
            rcases List.mem_append.mp h with h | h
            · exact Or.inl h
            · simp at h; exact Or.inr h
          · exact hx

/-- `extend` is `_apply` plus the persistence flag: field projections. -/
theorem extend_messages (cfg : MemoryConfig) (fmtTs : String → String) (now : String)
    (cur : List Message) (inputs : List MsgInput) :
    (extend cfg fmtTs now cur inputs).messages
      = (applyLoop cfg fmtTs now cur [] inputs).messages := rfl

theorem extend_dropped (cfg : MemoryConfig) (fmtTs : String → String) (now : String)
    (cur : List Message) (inputs : List MsgInput) :
    (extend cfg fmtTs now cur inputs).dropped
      = (applyLoop cfg fmtTs now cur [] inputs).dropped := rfl

theorem extend_error (cfg : MemoryConfig) (fmtTs : String → String) (now : String)
    (cur : List Message) (inputs : List MsgInput) :
    (extend cfg fmtTs now cur inputs).error
      = (applyLoop cfg fmtTs now cur [] inputs).error := rfl

/-! ## Claim theorems -/

/-- Claim C7 (counterexample): `setVar` is **not** idempotent when the value
reintroduces the token: on a tier holding one message `"<x>"`, running
`set_var "x" "a<x>"` twice changes the content a second time
(`"a<x>"` to `"aa<x>"`) and performs a second persistence write. -/
theorem set_var_idempotence_counterexample :
    (set_var (set_var [{ role := "user", content := "<x>" }] "x" "a<x>").1 "x" "a<x>").2
        = true ∧
    (set_var (set_var [{ role := "user", content := "<x>" }] "x" "a<x>").1 "x" "a<x>").1
        ≠ (set_var [{ role := "user", content := "<x>" }] "x" "a<x>").1 := by
  decide

/-- Claim C7 (amended): if after the first `set_var` no stored content still
contains the token `<var>` (which the substituted value can otherwise
reintroduce), a second `set_var` with the same arguments returns the state
unchanged and reports no persistence write; and, unconditionally, any
`set_var` call preserves every message's role, `compressed_content`,
`timestamp` and `formatted_timestamp`. -/
theorem set_var_idempotent_amended (ms : List Message) (var value : String)
    (h : ∀ m ∈ (set_var ms var value).1,
      ¬ ("<" ++ var ++ ">").toList <:+: m.content.toList) :
    set_var (set_var ms var value).1 var value = ((set_var ms var value).1, false) ∧
    (set_var ms var value).1.map
        (fun m => (m.role, m.compressed_content, m.timestamp, m.formatted_timestamp))
      = ms.map (fun m => (m.role, m.compressed_content, m.timestamp, m.formatted_timestamp)) := by
  refine ⟨?_, set_var_preserves_fields ms var value⟩
  apply set_var_no_change
  intro m hm
  exact pyReplace_no_occurrence _ _ _ (token_toList_ne_nil var) (h m hm)

/-- Claim C7 (witness): a concrete instance of the amended theorem — one
message `"a<x>b"`, substitution `x := "Y"`. -/
theorem set_var_idempotent_witness :
    set_var (set_var [{ role := "user", content := "a<x>b" }] "x" "Y").1 "x" "Y"
      = ((set_var [{ role := "user", content := "a<x>b" }] "x" "Y").1, false) ∧
    (set_var [{ role := "user", content := "a<x>b" }] "x" "Y").1.map
        (fun m => (m.role, m.compressed_content, m.timestamp, m.formatted_timestamp))
      = [({ role := "user", content := "a<x>b" } : Message)].map
          (fun m => (m.role, m.compressed_content, m.timestamp, m.formatted_timestamp)) :=
  set_var_idempotent_amended [{ role := "user", content := "a<x>b" }] "x" "Y" (by decide)

/-- A stream prefix free of the terminator and of malformed lines leaves the
loop running; a malformed line then raises, whatever follows it. -/
theorem streamLoop_error_of_malformed (pre rest : List StreamLine)
    (h : ∀ l ∈ pre, l ≠ StreamLine.done ∧ l ≠ StreamLine.malformed) :
    ∀ st : StreamLoopState,
      streamLoop st (pre ++ StreamLine.malformed :: rest) = .error () := by
  induction pre with
  | nil => intro st; rfl
  | cons l pre ih =>
    intro st
    have hl := h l (List.mem_cons_self l pre)
    have hrest : ∀ x ∈ pre, x ≠ StreamLine.done ∧ x ≠ StreamLine.malformed :=
      fun x hx => h x (List.mem_cons_of_mem l hx)
    match l, hl with
    | .empty, _ => exact ih hrest st
    | .noData s, _ => exact ih hrest st
    | .chunk c, _ => exact ih hrest _
    | .done, hl => exact absurd rfl hl.1
    | .malformed, hl => exact absurd rfl hl.2

/-- Claim C8: Scenario E — a reasoning delta `"thinking"`, a content delta
`"Hello"`, a content delta `" world"` carrying a usage payload, then the
terminator: the accumulated assistant text is `"Hello world"` (the reasoning
delta is excluded), the returned usage is the last chunk's usage object, and
exactly one assistant message with that text is appended. -/
theorem stream_scenario_e :
    streamCompletion
      [.chunk { choices := [{ reasoning_content := some "thinking" }] },
       .chunk { choices := [{ content := some "Hello" }] },
       .chunk { usage := some { completion_tokens := 2 },
                choices := [{ content := some " world" }] },
       .done]
    = { usage := some { completion_tokens := 2 },
        appended := [("assistant", "Hello world")] } := by
  decide

/-- Claim C3 (counterexample): a malformed event line aborts the whole
stream.  With a malformed line before a well-formed content chunk, the
parser returns no usage and appends nothing, while the same stream without
the malformed line yields the chunk's usage and assistant text — the
subsequent well-formed line was not processed. -/
theorem stream_malformed_counterexample :
    streamCompletion
      [.malformed,
       .chunk { usage := some { completion_tokens := 7 },
                choices := [{ content := some "ok" }] },
       .done]
      = { usage := none, appended := [] } ∧
    streamCompletion
      [.chunk { usage := some { completion_tokens := 7 },
                choices := [{ content := some "ok" }] },
       .done]
      = { usage := some { completion_tokens := 7 }, appended := [("assistant", "ok")] } := by
  decide

/-- Claim C3 (amended): a malformed event line (undecodable bytes or
unparsable JSON) raises inside the loop and aborts processing of the whole
stream: no later line is processed, the exception path reports the error,
returns no usage, and appends no assistant message. -/
theorem stream_malformed_aborts (pre rest : List StreamLine)
    (h : ∀ l ∈ pre, l ≠ StreamLine.done ∧ l ≠ StreamLine.malformed) :
    streamCompletion (pre ++ StreamLine.malformed :: rest)
      = { usage := none, appended := [] } := by
  unfold streamCompletion
  rw [streamLoop_error_of_malformed pre rest h]

/-- Claim C3 (witness): the amended theorem at a concrete stream — one
well-formed chunk before the malformed line, one after. -/
theorem stream_malformed_aborts_witness :
    streamCompletion
      [.chunk { choices := [{ content := some "before" }] },
       .malformed,
       .chunk { usage := some { completion_tokens := 3 },
                choices := [{ content := some "after" }] },
       .done]
      = { usage := none, appended := [] } :=
  stream_malformed_aborts
    [.chunk { choices := [{ content := some "before" }] }]
    [.chunk { usage := some { completion_tokens := 3 },
              choices := [{ content := some "after" }] },
     .done]
    (by decide)

/-- Claim C1: for a tier with capacity `C ≥ 1` (and any eviction batch
size), an `extend`/`append` call that completes normally on a state within
capacity leaves at most `C` stored messages, and the evicted list it returns
is exactly — in oldest-first order — what was removed from the front: the
returned evictions followed by the final contents reconstruct the prior
contents followed by the (timestamp-normalized) inputs. -/
theorem tier_capacity_and_eviction_order (cfg : MemoryConfig) (fmtTs : String → String)
    (now : String) (cur ms : List Message) (C : Nat)
    (hC : cfg.max_messages = some C) (hC1 : 1 ≤ C) (hlen : cur.length ≤ C)
    (herr : (extend cfg fmtTs now cur (ms.map .msg)).error = none) :
    (extend cfg fmtTs now cur (ms.map .msg)).messages.length ≤ C ∧
    (extend cfg fmtTs now cur (ms.map .msg)).dropped
        ++ (extend cfg fmtTs now cur (ms.map .msg)).messages
      = cur ++ ms.map (normalizeMessage fmtTs now) := by
  unfold extend at herr ⊢
  simp only
  constructor
  · exact applyLoop_msgs_length cfg fmtTs now C hC hC1 ms cur [] hlen
  · have := applyLoop_msgs_conservation cfg fmtTs now ms cur [] herr
    simpa using this

/-- Claim C1 (witness): Scenario A — capacity 3, batch size 1, four appends:
the call returns `[m1]` evicted and the tier holds `[m2, m3, m4]`. -/
theorem tier_capacity_witness :
    (extend { max_messages := some 3, drop_chunk_size := 1 } (fun t => t) "N" []
        ([{ role := "user", content := "m1" }, { role := "user", content := "m2" },
          { role := "user", content := "m3" },
          { role := "user", content := "m4" }].map .msg)).messages.length ≤ 3 ∧
    (extend { max_messages := some 3, drop_chunk_size := 1 } (fun t => t) "N" []
        ([{ role := "user", content := "m1" }, { role := "user", content := "m2" },
          { role := "user", content := "m3" }, { role := "user", content := "m4" }].map .msg)).dropped
      ++ (extend { max_messages := some 3, drop_chunk_size := 1 } (fun t => t) "N" []
        ([{ role := "user", content := "m1" }, { role := "user", content := "m2" },
          { role := "user", content := "m3" }, { role := "user", content := "m4" }].map .msg)).messages
      = [] ++ [{ role := "user", content := "m1" }, { role := "user", content := "m2" },
          { role := "user", content := "m3" },
          { role := "user", content := "m4" }].map (normalizeMessage (fun t => t) "N") :=
  tier_capacity_and_eviction_order { max_messages := some 3, drop_chunk_size := 1 }
    (fun t => t) "N" []
    [{ role := "user", content := "m1" }, { role := "user", content := "m2" },
     { role := "user", content := "m3" }, { role := "user", content := "m4" }]
    3 rfl (by decide) (by decide) (by decide)

/-- Claim C4 (counterexample): a role violation does **not** prevent partial
insertion.  Extending an empty tier (allowed roles `user`/`assistant`) with
a valid `user` message followed by an invalid `system` message raises the
validation error and skips the persistence write, but the `user` message has
already been inserted — insertion is not atomic. -/
theorem role_violation_counterexample :
    (extend { allowed_roles := some ["user", "assistant"] } (fun t => t) "N" []
        ([{ role := "user", content := "hi" },
          { role := "system", content := "nope" }].map .msg)).error.isSome = true ∧
    (extend { allowed_roles := some ["user", "assistant"] } (fun t => t) "N" []
        ([{ role := "user", content := "hi" },
          { role := "system", content := "nope" }].map .msg)).persisted = false ∧
    (extend { allowed_roles := some ["user", "assistant"] } (fun t => t) "N" []
        ([{ role := "user", content := "hi" },
          { role := "system", content := "nope" }].map .msg)).messages ≠ [] := by
  decide

/-- Claim C4 (amended): extending a tier with a role whitelist by a batch
containing a disallowed role always fails with a validation error and never
reaches the persistence write; however, the messages of the batch preceding
the first invalid one remain inserted in memory (no atomicity). -/
theorem role_violation_no_persist (cfg : MemoryConfig) (fmtTs : String → String)
    (now : String) (cur ms : List Message) (rs : List String)
    (hrs : cfg.allowed_roles = some rs)
    (hbad : ∃ m ∈ ms, m.role ∉ rs) :
    (extend cfg fmtTs now cur (ms.map .msg)).error.isSome = true ∧
    (extend cfg fmtTs now cur (ms.map .msg)).persisted = false := by
  have herr : (applyLoop cfg fmtTs now cur [] (ms.map .msg)).error.isSome = true := by
    cases he : (applyLoop cfg fmtTs now cur [] (ms.map .msg)).error with
    | some e => rfl
    | none =>
      obtain ⟨m, hm, hrole⟩ := hbad
      exact absurd (applyLoop_msgs_ok_roles cfg fmtTs now rs hrs ms cur [] he m hm) hrole
  unfold extend
  simp only
  refine ⟨herr, ?_⟩
  cases he : (applyLoop cfg fmtTs now cur [] (ms.map .msg)).error with
  | some e => simp [he]
  | none => rw [he] at herr; simp at herr

/-- Claim C4 (witness): the amended theorem at the counterexample's input. -/
theorem role_violation_no_persist_witness :
    (extend { allowed_roles := some ["user", "assistant"] } (fun t => t) "N" []
        ([{ role := "user", content := "hi" },
          { role := "system", content := "nope" }].map .msg)).error.isSome = true ∧
    (extend { allowed_roles := some ["user", "assistant"] } (fun t => t) "N" []
        ([{ role := "user", content := "hi" },
          { role := "system", content := "nope" }].map .msg)).persisted = false :=
  role_violation_no_persist { allowed_roles := some ["user", "assistant"] } (fun t => t) "N" []
    [{ role := "user", content := "hi" }, { role := "system", content := "nope" }]
    ["user", "assistant"] rfl
    ⟨{ role := "system", content := "nope" }, by decide, by decide⟩

/-- Claim C2 (counterexample): the cascade chain built by `Context.create`
is `working → short-term → long-term-episodic` only — the recall tier is
not a member, so evictions are never forwarded into it (and the chain's
last tier is unbounded, so it never evicts anything to forward). -/
theorem cascade_chain_counterexample :
    LayerTag.recall ∉ contextLayers ∧
    contextLayers
      ≠ [LayerTag.working, LayerTag.shortTerm, LayerTag.longTermEpisodic, LayerTag.recall] := by
  decide

/-- Claim C2 (amended): the cascade chain is
`working → short-term → long-term-episodic`; during `Context.append` each
evicted batch is inserted, in order, into the next tier of the chain, the
chain ends at the (unbounded) episodic tier, and the recall tier never
receives anything.  Formally: on a reachable state (stored messages are
timestamp-normalized and carry allowed roles), appending a `user`/`assistant`
message succeeds, leaves recall untouched, and there are batches `d1`, `d2`
with `d1 ++ working' = working ++ [new]`, `d2 ++ shortTerm' = shortTerm ++ d1`
and `longTerm' = longTerm ++ d2`. -/
theorem context_cascade_amended (fmtTs : String → String) (now : String) (s : ContextState)
    (role content : String) (hrole : role ∈ ["user", "assistant"])
    (hw : ∀ m ∈ s.working, m.role ∈ ["user", "assistant"] ∧
        m.timestamp.isSome = true ∧ m.formatted_timestamp.isSome = true)
    (hst : ∀ m ∈ s.short_term, m.role ∈ ["user", "assistant"] ∧
        m.timestamp.isSome = true ∧ m.formatted_timestamp.isSome = true) :
    (ctxAppend fmtTs now s role content).error = none ∧
    (ctxAppend fmtTs now s role content).state.recall_memory = s.recall_memory ∧
    ∃ d1 d2 : List Message,
      d1 ++ (ctxAppend fmtTs now s role content).state.working
        = s.working ++ [normalizeMessage fmtTs now { role := role, content := content }] ∧
      d2 ++ (ctxAppend fmtTs now s role content).state.short_term
        = s.short_term ++ d1 ∧
      (ctxAppend fmtTs now s role content).state.long_term_episodic
        = s.long_term_episodic ++ d2 := by
  have hcapW : ∀ C, workingConfig.max_messages = some C → 1 ≤ C := by
    intro C hC
    simp [workingConfig] at hC
    omega
  have hrolesW : ∀ m ∈ [({ role := role, content := content } : Message)], ∀ rs,
      workingConfig.allowed_roles = some rs → m.role ∈ rs := by
    intro m hm rs hrs
    simp [workingConfig] at hrs
    subst hrs
    simp at hm
    subst hm
    exact hrole
  have h1err0 : (applyLoop workingConfig fmtTs now s.working []
      [MsgInput.msg { role := role, content := content }]).error = none :=
    applyLoop_msgs_no_error workingConfig fmtTs now hcapW
      [{ role := role, content := content }] hrolesW s.working []
  have h1err : (extend workingConfig fmtTs now s.working
      [MsgInput.msg { role := role, content := content }]).error = none := by
    unfold extend
    simp only
    exact h1err0
  have hcons1 : (extend workingConfig fmtTs now s.working
          [MsgInput.msg { role := role, content := content }]).dropped
        ++ (extend workingConfig fmtTs now s.working
          [MsgInput.msg { role := role, content := content }]).messages
      = s.working ++ [normalizeMessage fmtTs now { role := role, content := content }] := by
    unfold extend
    simp only
    simpa using applyLoop_msgs_conservation workingConfig fmtTs now
      [{ role := role, content := content }] s.working [] h1err0
  have hd1P : ∀ x ∈ (extend workingConfig fmtTs now s.working
        [MsgInput.msg { role := role, content := content }]).dropped,
      x.role ∈ ["user", "assistant"] ∧
        x.timestamp.isSome = true ∧ x.formatted_timestamp.isSome = true := by
    intro x hx
    have hx2 : x ∈ s.working
        ++ [normalizeMessage fmtTs now { role := role, content := content }] := by
      rw [← hcons1]
      exact List.mem_append_left _ hx
    rcases List.mem_append.mp hx2 with h | h
    · exact hw x h
    · simp only [List.mem_singleton] at h
      subst h
      refine ⟨?_, (normalizeMessage_isSome fmtTs now _).1, (normalizeMessage_isSome fmtTs now _).2⟩
      rw [normalizeMessage_role]
      exact hrole
  unfold ctxAppend
  simp only [h1err]
  by_cases hd1 : (extend workingConfig fmtTs now s.working
      [MsgInput.msg { role := role, content := content }]).dropped = []
  · rw [if_pos hd1]
    refine ⟨rfl, rfl, [], [], ?_, by simp, by simp⟩
    simp only [List.nil_append]
    rw [← hcons1, hd1, List.nil_append]
  · rw [if_neg hd1]
    have hcapS : ∀ C, shortTermConfig.max_messages = some C → 1 ≤ C := by
      intro C hC
      simp [shortTermConfig] at hC
      omega
    have hrolesS : ∀ m ∈ (extend workingConfig fmtTs now s.working
        [MsgInput.msg { role := role, content := content }]).dropped, ∀ rs,
        shortTermConfig.allowed_roles = some rs → m.role ∈ rs := by
      intro m hm rs hrs
      simp [shortTermConfig] at hrs
      subst hrs
      exact (hd1P m hm).1
    have h2err0 : (applyLoop shortTermConfig fmtTs now s.short_term []
        ((extend workingConfig fmtTs now s.working
          [MsgInput.msg { role := role, content := content }]).dropped.map .msg)).error = none :=
      applyLoop_msgs_no_error shortTermConfig fmtTs now hcapS _ hrolesS s.short_term []
    have h2err : (extend shortTermConfig fmtTs now s.short_term
        ((extend workingConfig fmtTs now s.working
          [MsgInput.msg { role := role, content := content }]).dropped.map .msg)).error = none := by
      unfold extend
      simp only
      exact h2err0
    have hfix1 : (extend workingConfig fmtTs now s.working
          [MsgInput.msg { role := role, content := content }]).dropped.map
            (normalizeMessage fmtTs now)
        = (extend workingConfig fmtTs now s.working
          [MsgInput.msg { role := role, content := content }]).dropped := by
      conv_rhs => rw [← List.map_id ((extend workingConfig fmtTs now s.working
        [MsgInput.msg { role := role, content := content }]).dropped)]
      apply List.map_congr_left
      intro x hx
      exact normalizeMessage_eq_self fmtTs now x (hd1P x hx).2.1 (hd1P x hx).2.2
    have hcons2 : (extend shortTermConfig fmtTs now s.short_term
          ((extend workingConfig fmtTs now s.working
            [MsgInput.msg { role := role, content := content }]).dropped.map .msg)).dropped
        ++ (extend shortTermConfig fmtTs now s.short_term
          ((extend workingConfig fmtTs now s.working
            [MsgInput.msg { role := role, content := content }]).dropped.map .msg)).messages
      = s.short_term ++ (extend workingConfig fmtTs now s.working
          [MsgInput.msg { role := role, content := content }]).dropped := by
      unfold extend
      simp only
      have := applyLoop_msgs_conservation shortTermConfig fmtTs now _ s.short_term [] h2err0
      rw [hfix1] at this
      simpa using this
    have hd2P : ∀ x ∈ (extend shortTermConfig fmtTs now s.short_term
        ((extend workingConfig fmtTs now s.working
          [MsgInput.msg { role := role, content := content }]).dropped.map .msg)).dropped,
        x.role ∈ ["user", "assistant"] ∧
          x.timestamp.isSome = true ∧ x.formatted_timestamp.isSome = true := by
      intro x hx
      have hx2 : x ∈ s.short_term ++ (extend workingConfig fmtTs now s.working
          [MsgInput.msg { role := role, content := content }]).dropped := by
        rw [← hcons2]
        exact List.mem_append_left _ hx
      rcases List.mem_append.mp hx2 with h | h
      · exact hst x h
      · exact hd1P x h
    simp only [h2err]
    by_cases hd2 : (extend shortTermConfig fmtTs now s.short_term
        ((extend workingConfig fmtTs now s.working
          [MsgInput.msg { role := role, content := content }]).dropped.map .msg)).dropped = []
    · rw [if_pos hd2]
      refine ⟨rfl, rfl, (extend workingConfig fmtTs now s.working
        [MsgInput.msg { role := role, content := content }]).dropped, [], hcons1, ?_, by simp⟩
      simp only [List.nil_append]
      rw [← hcons2, hd2, List.nil_append]
    · rw [if_neg hd2]
      have hrolesL : ∀ m ∈ (extend shortTermConfig fmtTs now s.short_term
          ((extend workingConfig fmtTs now s.working
            [MsgInput.msg { role := role, content := content }]).dropped.map .msg)).dropped, ∀ rs,
          longTermEpisodicConfig.allowed_roles = some rs → m.role ∈ rs := by
        intro m hm rs hrs
        simp [longTermEpisodicConfig] at hrs
        subst hrs
        have := (hd2P m hm).1
        simp only [List.mem_cons, List.mem_singleton, List.not_mem_nil, or_false] at this ⊢
        tauto
      have hcapL : ∀ C, longTermEpisodicConfig.max_messages = some C → 1 ≤ C := by
        intro C hC
        simp [longTermEpisodicConfig] at hC
      have h3err0 : (applyLoop longTermEpisodicConfig fmtTs now s.long_term_episodic []
          ((extend shortTermConfig fmtTs now s.short_term
            ((extend workingConfig fmtTs now s.working
              [MsgInput.msg { role := role, content := content }]).dropped.map .msg)).dropped.map
                .msg)).error = none :=
        applyLoop_msgs_no_error longTermEpisodicConfig fmtTs now hcapL _ hrolesL
          s.long_term_episodic []
      have hfix2 : (extend shortTermConfig fmtTs now s.short_term
            ((extend workingConfig fmtTs now s.working
              [MsgInput.msg { role := role, content := content }]).dropped.map .msg)).dropped.map
              (normalizeMessage fmtTs now)
          = (extend shortTermConfig fmtTs now s.short_term
            ((extend workingConfig fmtTs now s.working
              [MsgInput.msg { role := role, content := content }]).dropped.map .msg)).dropped := by
        conv_rhs => rw [← List.map_id ((extend shortTermConfig fmtTs now s.short_term
          ((extend workingConfig fmtTs now s.working
            [MsgInput.msg { role := role, content := content }]).dropped.map .msg)).dropped)]
        apply List.map_congr_left
        intro x hx
        exact normalizeMessage_eq_self fmtTs now x (hd2P x hx).2.1 (hd2P x hx).2.2
      have h3unb := applyLoop_msgs_unbounded longTermEpisodicConfig fmtTs now rfl
        ((extend shortTermConfig fmtTs now s.short_term
          ((extend workingConfig fmtTs now s.working
            [MsgInput.msg { role := role, content := content }]).dropped.map .msg)).dropped)
        s.long_term_episodic [] h3err0
      refine ⟨?_, rfl, (extend workingConfig fmtTs now s.working
          [MsgInput.msg { role := role, content := content }]).dropped,
        (extend shortTermConfig fmtTs now s.short_term
          ((extend workingConfig fmtTs now s.working
            [MsgInput.msg { role := role, content := content }]).dropped.map .msg)).dropped,
        hcons1, hcons2, ?_⟩
      · simp only [extend_error]
        exact h3err0
      · simp only [extend_messages, extend_dropped] at h3unb hfix2 ⊢
        rw [h3unb]
        simp [hfix2]

/-- Claim C2 (witness): the amended cascade theorem at a concrete state —
one normalized message in working memory, one message in recall. -/
theorem context_cascade_witness :
    (ctxAppend (fun t => t) "N"
        { working :=
            [{ role := "user", content := "w1", timestamp := some "T", formatted_timestamp := some "T" }],
          short_term := [],
          long_term_episodic := [],
          recall_memory := [{ role := "user", content := "r1" }] }
        "user" "new").error = none ∧
    (ctxAppend (fun t => t) "N"
        { working :=
            [{ role := "user", content := "w1", timestamp := some "T", formatted_timestamp := some "T" }],
          short_term := [],
          long_term_episodic := [],
          recall_memory := [{ role := "user", content := "r1" }] }
        "user" "new").state.recall_memory = [{ role := "user", content := "r1" }] ∧
    ∃ d1 d2 : List Message,
      d1 ++ (ctxAppend (fun t => t) "N"
          { working :=
              [{ role := "user", content := "w1", timestamp := some "T", formatted_timestamp := some "T" }],
            short_term := [],
            long_term_episodic := [],
            recall_memory := [{ role := "user", content := "r1" }] }
          "user" "new").state.working
        = [{ role := "user", content := "w1", timestamp := some "T", formatted_timestamp := some "T" }]
          ++ [normalizeMessage (fun t => t) "N" { role := "user", content := "new" }] ∧
      d2 ++ (ctxAppend (fun t => t) "N"
          { working :=
              [{ role := "user", content := "w1", timestamp := some "T", formatted_timestamp := some "T" }],
            short_term := [],
            long_term_episodic := [],
            recall_memory := [{ role := "user", content := "r1" }] }
          "user" "new").state.short_term = [] ++ d1 ∧
      (ctxAppend (fun t => t) "N"
          { working :=
              [{ role := "user", content := "w1", timestamp := some "T", formatted_timestamp := some "T" }],
            short_term := [],
            long_term_episodic := [],
            recall_memory := [{ role := "user", content := "r1" }] }
          "user" "new").state.long_term_episodic = [] ++ d2 :=
  context_cascade_amended (fun t => t) "N"
    { working :=
        [{ role := "user", content := "w1", timestamp := some "T", formatted_timestamp := some "T" }],
      short_term := [],
      long_term_episodic := [],
      recall_memory := [{ role := "user", content := "r1" }] }
    "user" "new" (by decide) (by decide) (by decide)

/-- `to_messages` renders index `i` by `_render_role` and `_render_content`. -/
theorem toMessages_getElem (cfg : MemoryConfig) (nowHM : String) (msgs : List Message)
    (i : Nat) (m : Message) (h : msgs[i]? = some m) :
    (toMessages cfg nowHM msgs)[i]?
      = some { role := renderRole m, content := renderContent cfg nowHM msgs.length m i } := by
  unfold toMessages
  rw [List.getElem?_map, List.getElem?_enum, h]
  rfl

/-- Claim C5: on a tier with timestamp rendering enabled holding `n ≥ 3`
messages, `render()` prefixes each message at index `i < n - 2` with its
cached `formatted_timestamp`, prefixes the last message with the current
wall-clock time `nowHM` instead of its stored timestamp, and gives the
second-to-last message no timestamp prefix at all. -/
theorem render_timestamp_window (cfg : MemoryConfig) (nowHM : String) (msgs : List Message)
    (hts : cfg.include_timestamp = true) (h3 : 3 ≤ msgs.length) :
    (∀ i m f, msgs[i]? = some m → i + 2 < msgs.length → m.formatted_timestamp = some f →
      (toMessages cfg nowHM msgs)[i]?
        = some { role := renderRole m, content := f ++ "\n\n" ++ renderContentBase cfg m i }) ∧
    (∀ m, msgs[msgs.length - 1]? = some m →
      (toMessages cfg nowHM msgs)[msgs.length - 1]?
        = some { role := renderRole m,
                 content := nowHM ++ "\n\n" ++ renderContentBase cfg m (msgs.length - 1) }) ∧
    (∀ m, msgs[msgs.length - 2]? = some m →
      (toMessages cfg nowHM msgs)[msgs.length - 2]?
        = some { role := renderRole m, content := renderContentBase cfg m (msgs.length - 2) }) := by
  refine ⟨?_, ?_, ?_⟩
  · intro i m f hm hi hf
    rw [toMessages_getElem cfg nowHM msgs i m hm]
    unfold renderContent
    simp [hts, hi, hf]
  · intro m hm
    rw [toMessages_getElem cfg nowHM msgs _ m hm]
    unfold renderContent
    have h1 : ¬ (msgs.length - 1 + 2 < msgs.length) := by omega
    have h2 : msgs.length - 1 + 1 = msgs.length := by omega
    simp [hts, h1, h2]
  · intro m hm
    rw [toMessages_getElem cfg nowHM msgs _ m hm]
    unfold renderContent
    have h1 : ¬ (msgs.length - 2 + 2 < msgs.length) := by omega
    have h2 : ¬ (msgs.length - 2 + 1 = msgs.length) := by omega
    simp [hts, h1, h2]

/-- Claim C5 (witness): the theorem at a short-term tier holding three
messages with cached formatted timestamps. -/
theorem render_timestamp_window_witness :
    (toMessages shortTermConfig "NOW"
        [{ role := "user", content := "a", timestamp := some "T1", formatted_timestamp := some "F1" },
         { role := "assistant", content := "b", timestamp := some "T2", formatted_timestamp := some "F2" },
         { role := "user", content := "c", timestamp := some "T3", formatted_timestamp := some "F3" }])[0]?
      = some { role := renderRole { role := "user", content := "a", timestamp := some "T1", formatted_timestamp := some "F1" },
               content := "F1" ++ "\n\n" ++ renderContentBase shortTermConfig
                 { role := "user", content := "a", timestamp := some "T1", formatted_timestamp := some "F1" } 0 } ∧
    (toMessages shortTermConfig "NOW"
        [{ role := "user", content := "a", timestamp := some "T1", formatted_timestamp := some "F1" },
         { role := "assistant", content := "b", timestamp := some "T2", formatted_timestamp := some "F2" },
         { role := "user", content := "c", timestamp := some "T3", formatted_timestamp := some "F3" }])[2]?
      = some { role := renderRole { role := "user", content := "c", timestamp := some "T3", formatted_timestamp := some "F3" },
               content := "NOW" ++ "\n\n" ++ renderContentBase shortTermConfig
                 { role := "user", content := "c", timestamp := some "T3", formatted_timestamp := some "F3" } 2 } ∧
    (toMessages shortTermConfig "NOW"
        [{ role := "user", content := "a", timestamp := some "T1", formatted_timestamp := some "F1" },
         { role := "assistant", content := "b", timestamp := some "T2", formatted_timestamp := some "F2" },
         { role := "user", content := "c", timestamp := some "T3", formatted_timestamp := some "F3" }])[1]?
      = some { role := renderRole { role := "assistant", content := "b", timestamp := some "T2", formatted_timestamp := some "F2" },
               content := renderContentBase shortTermConfig
                 { role := "assistant", content := "b", timestamp := some "T2", formatted_timestamp := some "F2" } 1 } := by
  have h := render_timestamp_window shortTermConfig "NOW"
    [{ role := "user", content := "a", timestamp := some "T1", formatted_timestamp := some "F1" },
     { role := "assistant", content := "b", timestamp := some "T2", formatted_timestamp := some "F2" },
     { role := "user", content := "c", timestamp := some "T3", formatted_timestamp := some "F3" }]
    rfl (by decide)
  exact ⟨h.1 0 _ "F1" rfl (by decide) rfl, h.2.1 _ rfl, h.2.2 _ rfl⟩

/-- Claim C10: `to_messages` emits a stored message whose role is `memory`
with role `system`; every other role is emitted unchanged, and the content
is the rendered content. -/
theorem memory_role_rendered_as_system (cfg : MemoryConfig) (nowHM : String)
    (msgs : List Message) (i : Nat) (m : Message) (h : msgs[i]? = some m) :
    ∃ r : Rendered, (toMessages cfg nowHM msgs)[i]? = some r ∧
      r.role = (if m.role = "memory" then "system" else m.role) ∧
      r.content = renderContent cfg nowHM msgs.length m i :=
  ⟨_, toMessages_getElem cfg nowHM msgs i m h, rfl, rfl⟩

/-- Claim C10 (witness): a `memory`-role message in the workspace tier is
rendered with role `system`; a `user`-role message in the recall tier keeps
its role. -/
theorem memory_role_rendered_witness :
    (∃ r : Rendered,
      (toMessages workspaceConfig "NOW" [{ role := "memory", content := "note" }])[0]? = some r ∧
      r.role = (if ("memory" : String) = "memory" then "system" else "memory") ∧
      r.content = renderContent workspaceConfig "NOW" 1 { role := "memory", content := "note" } 0) ∧
    (∃ r : Rendered,
      (toMessages recallConfig "NOW" [{ role := "user", content := "hi" }])[0]? = some r ∧
      r.role = (if ("user" : String) = "memory" then "system" else "user") ∧
      r.content = renderContent recallConfig "NOW" 1 { role := "user", content := "hi" } 0) :=
  ⟨memory_role_rendered_as_system workspaceConfig "NOW" [{ role := "memory", content := "note" }]
      0 { role := "memory", content := "note" } rfl,
   memory_role_rendered_as_system recallConfig "NOW" [{ role := "user", content := "hi" }]
      0 { role := "user", content := "hi" } rfl⟩

/-- `_parse_message` applied to the serialized form of a message rebuilds
its four persisted fields and recomputes `formatted_timestamp` from the
timestamp. -/
theorem parseMessage_serializeMessage (fmtTs : String → String) (m : Message) :
    parseMessage fmtTs (serializeMessage m)
      = .ok { role := m.role, content := m.content,
              compressed_content := m.compressed_content,
              timestamp := m.timestamp,
              formatted_timestamp := m.timestamp.map fmtTs } := rfl

/-- `_parse_message` inverts `_serialize` exactly on a message whose cached
`formatted_timestamp` is what `_format_timestamp` computes from its
timestamp. -/
theorem parseMessage_serialized (fmtTs : String → String) (m : Message) (t : String)
    (ht : m.timestamp = some t) (hft : m.formatted_timestamp = some (fmtTs t)) :
    parseMessage fmtTs (serializeMessage m) = .ok m := by
  cases m with
  | mk role content cc ts ft =>
    simp only at ht hft
    subst ht
    subst hft
    simp [parseMessage, serializeMessage]

/-- `_parse_messages` inverts the serialization of a whole normalized
message list. -/
theorem parseMessages_serialized (fmtTs : String → String) :
    ∀ ms : List Message,
      (∀ m ∈ ms, ∃ t, m.timestamp = some t ∧ m.formatted_timestamp = some (fmtTs t)) →
      parseMessages fmtTs (ms.map serializeMessage) = .ok ms := by
  intro ms
  induction ms with
  | nil => intro _; rfl
  | cons m ms ih =>
    intro h
    obtain ⟨t, ht, hft⟩ := h m (List.mem_cons_self m ms)
    simp only [List.map_cons, parseMessages, parseMessage_serialized fmtTs m t ht hft,
      ih (fun x hx => h x (List.mem_cons_of_mem m hx))]

/-- `_parse_messages` never fails on serialized output (role and content
keys are always written). -/
theorem parseMessages_serialized_ok (fmtTs : String → String) :
    ∀ ms : List Message, ∃ rs, parseMessages fmtTs (ms.map serializeMessage) = .ok rs := by
  intro ms
  induction ms with
  | nil => exact ⟨[], rfl⟩
  | cons m ms ih =>
    obtain ⟨rs, hrs⟩ := ih
    refine ⟨{ role := m.role,
              content := m.content,
              compressed_content := m.compressed_content,
              timestamp := m.timestamp,
              formatted_timestamp := m.timestamp.map fmtTs } :: rs, ?_⟩
    simp only [List.map_cons, parseMessages, parseMessage_serializeMessage, hrs]

/-- Re-`_apply`-ing the serialized form of a within-capacity, fully
normalized, role-valid message list rebuilds it exactly. -/
theorem applyLoop_serialized (cfg : MemoryConfig) (fmtTs : String → String) (now : String) :
    ∀ (rest acc : List Message),
      (∀ C, cfg.max_messages = some C → 1 ≤ C ∧ acc.length + rest.length ≤ C) →
      (∀ m ∈ rest, ∀ rs, cfg.allowed_roles = some rs → m.role ∈ rs) →
      (∀ m ∈ rest, ∃ t, m.timestamp = some t ∧ m.formatted_timestamp = some (fmtTs t)) →
      applyLoop cfg fmtTs now acc [] ((rest.map serializeMessage).map .raw)
        = { messages := acc ++ rest, dropped := [], error := none } := by
  intro rest
  induction rest with
  | nil =>
    intro acc _ _ _
    simp [applyLoop]
  | cons m ms ih =>
    intro acc hcap hroles hts
    obtain ⟨t, ht, hft⟩ := hts m (List.mem_cons_self m ms)
    have hparse : parseMessage fmtTs (serializeMessage m) = .ok m :=
      parseMessage_serialized fmtTs m t ht hft
    have hnorm : normalizeMessage fmtTs now m = m :=
      normalizeMessage_eq_self fmtTs now m (by rw [ht]; rfl) (by rw [hft]; rfl)
    have hval : validate cfg m = none := by
      apply validate_none_of
      · exact hroles m (List.mem_cons_self m ms)
      · intro C hC
        exact (hcap C hC).1
    simp only [List.map_cons, applyLoop, hparse, hnorm, hval]
    have hcap2 : ∀ C, cfg.max_messages = some C → 1 ≤ C ∧ (acc ++ [m]).length + ms.length ≤ C := by
      intro C hC
      have := hcap C hC
      simp only [List.length_append, List.length_cons, List.length_nil] at this ⊢
      omega
    have hroles2 : ∀ x ∈ ms, ∀ rs, cfg.allowed_roles = some rs → x.role ∈ rs :=
      fun x hx => hroles x (List.mem_cons_of_mem m hx)
    have hts2 : ∀ x ∈ ms, ∃ u, x.timestamp = some u ∧ x.formatted_timestamp = some (fmtTs u) :=
      fun x hx => hts x (List.mem_cons_of_mem m hx)
    split
    next maxM hmax =>
      have hlt : ¬ maxM ≤ acc.length := by
        have := hcap maxM hmax
        simp only [List.length_cons] at this
        omega
      rw [if_neg hlt, ih (acc ++ [m]) hcap2 hroles2 hts2]
      simp
    next hmax =>
      rw [ih (acc ++ [m]) hcap2 hroles2 hts2]
      simp

/-- `_load_from_disk` on a plain JSON array runs `_apply` from the empty
state. -/
theorem loadFromDisk_ordinary (cfg : MemoryConfig) (fmtTs : String → String) (now : String)
    (items : List RawMessage) :
    loadFromDisk cfg fmtTs now (.ordinary items)
      = { messages := (applyLoop cfg fmtTs now [] [] (items.map .raw)).messages,
          uncompressed := [],
          error := (applyLoop cfg fmtTs now [] [] (items.map .raw)).error } := rfl

/-- `_load_from_disk` on the single-element `{messages, uncompressed}`
wrapper read by an episodic long-term tier runs `_parse_messages` on both
lists. -/
theorem loadFromDisk_wrapped_ltm (cfg : MemoryConfig) (fmtTs : String → String) (now : String)
    (ms us : List RawMessage) (hl : cfg.is_long_term_memory = true)
    (msgs us2 : List Message)
    (hms : parseMessages fmtTs ms = .ok msgs) (hus : parseMessages fmtTs us = .ok us2) :
    loadFromDisk cfg fmtTs now (.wrapped ms us)
      = { messages := msgs, uncompressed := us2, error := none } := by
  unfold loadFromDisk
  simp [hl, hms, hus]

/-- Claim C6: serializing any tier with a persistence target (the plain
array of ordinary tiers as well as the wrapped `{messages, uncompressed}`
form of the long-term tiers) and reconstructing a tier with the same policy
flags from that payload succeeds and yields the same message list, hence an
identical rendered message list — the reconstructed `formatted_timestamp`
values are recomputed by the same `_format_timestamp`, so they coincide
with the cached ones, and the current-time injection on the last rendered
message uses the same `nowHM`. -/
theorem persist_roundtrip (cfg : MemoryConfig) (fmtTs : String → String) (now nowHM : String)
    (msgs unc : List Message)
    (hcap : ∀ C, cfg.max_messages = some C → 1 ≤ C ∧ msgs.length ≤ C)
    (hroles : ∀ m ∈ msgs, ∀ rs, cfg.allowed_roles = some rs → m.role ∈ rs)
    (hts : ∀ m ∈ msgs, ∃ t, m.timestamp = some t ∧ m.formatted_timestamp = some (fmtTs t)) :
    (loadFromDisk cfg fmtTs now (serialize cfg msgs unc)).error = none ∧
    (loadFromDisk cfg fmtTs now (serialize cfg msgs unc)).messages = msgs ∧
    toMessages cfg nowHM (loadFromDisk cfg fmtTs now (serialize cfg msgs unc)).messages
      = toMessages cfg nowHM msgs := by
  cases hl : cfg.is_long_term_memory with
  | false =>
    have hser : serialize cfg msgs unc = .ordinary (msgs.map serializeMessage) := by
      unfold serialize
      simp [hl]
    have happ := applyLoop_serialized cfg fmtTs now msgs []
      (by intro C hC; simpa using hcap C hC) hroles hts
    rw [hser, loadFromDisk_ordinary, happ]
    exact ⟨rfl, rfl, rfl⟩
  | true =>
    have hser : serialize cfg msgs unc
        = .wrapped (msgs.map serializeMessage) (unc.map serializeMessage) := by
      unfold serialize
      simp [hl]
    obtain ⟨us2, hus2⟩ := parseMessages_serialized_ok fmtTs unc
    have hmsgs := parseMessages_serialized fmtTs msgs hts
    rw [hser, loadFromDisk_wrapped_ltm cfg fmtTs now _ _ hl msgs us2 hmsgs hus2]
    exact ⟨rfl, rfl, rfl⟩

/-- Claim C6 (witness): round-trip of a one-message episodic long-term tier
(wrapped payload, with a non-empty uncompressed shadow list) and of a
one-message recall tier (plain payload). -/
theorem persist_roundtrip_witness :
    ((loadFromDisk longTermEpisodicConfig (fun t => t) "N"
        (serialize longTermEpisodicConfig
          [{ role := "memory", content := "summary", timestamp := some "T", formatted_timestamp := some "T" }]
          [{ role := "user", content := "raw" }])).error = none ∧
     (loadFromDisk longTermEpisodicConfig (fun t => t) "N"
        (serialize longTermEpisodicConfig
          [{ role := "memory", content := "summary", timestamp := some "T", formatted_timestamp := some "T" }]
          [{ role := "user", content := "raw" }])).messages
       = [{ role := "memory", content := "summary", timestamp := some "T", formatted_timestamp := some "T" }] ∧
     toMessages longTermEpisodicConfig "NOW"
        (loadFromDisk longTermEpisodicConfig (fun t => t) "N"
          (serialize longTermEpisodicConfig
            [{ role := "memory", content := "summary", timestamp := some "T", formatted_timestamp := some "T" }]
            [{ role := "user", content := "raw" }])).messages
       = toMessages longTermEpisodicConfig "NOW"
          [{ role := "memory", content := "summary", timestamp := some "T", formatted_timestamp := some "T" }]) ∧
    ((loadFromDisk recallConfig (fun t => t) "N"
        (serialize recallConfig
          [{ role := "user", content := "hi", timestamp := some "T", formatted_timestamp := some "T" }] [])).error = none ∧
     (loadFromDisk recallConfig (fun t => t) "N"
        (serialize recallConfig
          [{ role := "user", content := "hi", timestamp := some "T", formatted_timestamp := some "T" }] [])).messages
       = [{ role := "user", content := "hi", timestamp := some "T", formatted_timestamp := some "T" }] ∧
     toMessages recallConfig "NOW"
        (loadFromDisk recallConfig (fun t => t) "N"
          (serialize recallConfig
            [{ role := "user", content := "hi", timestamp := some "T", formatted_timestamp := some "T" }] [])).messages
       = toMessages recallConfig "NOW"
          [{ role := "user", content := "hi", timestamp := some "T", formatted_timestamp := some "T" }]) :=
  ⟨persist_roundtrip longTermEpisodicConfig (fun t => t) "N" "NOW"
    [{ role := "memory", content := "summary", timestamp := some "T", formatted_timestamp := some "T" }]
    [{ role := "user", content := "raw" }]
    (by intro C hC; simp [longTermEpisodicConfig] at hC)
    (by
      intro m hm rs hrs
      simp [longTermEpisodicConfig] at hrs
      subst hrs
      simp at hm
      subst hm
      decide)
    (by
      intro m hm
      simp at hm
      subst hm
      exact ⟨"T", rfl, rfl⟩),
   persist_roundtrip recallConfig (fun t => t) "N" "NOW"
    [{ role := "user", content := "hi", timestamp := some "T", formatted_timestamp := some "T" }] []
    (by intro C hC; simp [recallConfig] at hC)
    (by
      intro m hm rs hrs
      simp [recallConfig] at hrs
      subst hrs
      simp at hm
      subst hm
      decide)
    (by
      intro m hm
      simp at hm
      subst hm
      exact ⟨"T", rfl, rfl⟩)⟩

/-- Claim C9: the workspace pre-step maps the difficulty tag taken from the
last token of the generated note to effort `easy → low`, `medium → medium`,
`hard → high`, anything else `→ low`; and an empty (all-whitespace) LLM
output leaves the previous workspace contents unchanged with effort `low`. -/
theorem workspace_update_mapping (fmtTs : String → String) (now : String)
    (prev : List Message) (llmOut : String) :
    (pyStrip llmOut = "" → updateWorkspace fmtTs now prev llmOut = (prev, "low")) ∧
    (pyStrip llmOut ≠ "" → ∀ d, d = pyLower (pyStrip (lastToken (pyStrip llmOut))) →
      ((d = "easy" → (updateWorkspace fmtTs now prev llmOut).2 = "low") ∧
       (d = "medium" → (updateWorkspace fmtTs now prev llmOut).2 = "medium") ∧
       (d = "hard" → (updateWorkspace fmtTs now prev llmOut).2 = "high") ∧
       (d ≠ "easy" → d ≠ "medium" → d ≠ "hard" →
         (updateWorkspace fmtTs now prev llmOut).2 = "low"))) := by
  constructor
  · intro h
    simp only [updateWorkspace, if_pos h]
  · intro h d hd
    subst hd
    simp only [updateWorkspace, if_neg h]
    unfold difficultyToThinking
    refine ⟨?_, ?_, ?_, ?_⟩
    · intro he
      rw [he]
      simp
    · intro he
      rw [he]
      simp
    · intro he
      rw [he]
      simp
    · intro h1 h2 h3
      simp [h1, h2, h3]

/-- Claim C9 (witness): whitespace-only output keeps the previous workspace
and yields effort `low`; a note ending in `hard` yields effort `high`. -/
theorem workspace_update_witness :
    updateWorkspace (fun t => t) "N" [{ role := "memory", content := "old" }] "   "
      = ([{ role := "memory", content := "old" }], "low") ∧
    (updateWorkspace (fun t => t) "N" [] "plan is hard").2 = "high" :=
  ⟨(workspace_update_mapping (fun t => t) "N" [{ role := "memory", content := "old" }] "   ").1
      (by decide),
   ((workspace_update_mapping (fun t => t) "N" [] "plan is hard").2
      (by decide) "hard" (by decide)).2.2.1 rfl⟩

end Memorizer
